import Mathlib

/-!
Verification of the playback orchestration and persistence core of an
embeddable podcast-player widget.

The development shallowly embeds the TypeScript sources:

* `src/core/playback-storage.ts`  — resume-position store (`PlaybackStorage`);
* `src/core/player-state.ts`      — player-state / speed store (`PlayerStateStorage`);
* `src/core/episode-provider.ts`  — caching, retrying content provider
  (`FetchEpisodeProvider`);
* `src/core/audio-engine.ts`      — playback engine, at the state contract level;
* `src/ui/player-controller.ts`   — the orchestrator (`PlayerController`).

Numbers that are JavaScript `number` values (offsets, durations, volumes,
speeds) are modelled as rationals: every claim below only compares, adds or
subtracts small quantities, for which the rational order agrees with the
IEEE-754 order on the representable values.

The resume-position store persists a plain JSON object.  JavaScript objects
enumerate their own property keys in a specific order: keys that are canonical
array indices (decimal strings with no leading zero whose value is below
2^32 − 1) come first, in ascending numeric order, and all remaining string
keys follow in insertion order.  `JSON.stringify` walks that enumeration
order and `JSON.parse` inserts keys in the order of the text, so the stored
object is always in enumeration-normal form.  The store state is therefore a
key/value list in the order of the persisted text, and `jsEnum` computes the
enumeration order.
-/

namespace PodcastWidget

/-- Numeric value of a decimal digit string (the empty string gives 0). -/
def digitsVal (s : String) : ℕ :=
  s.toList.foldl (fun a c => 10 * a + (c.toNat - 48)) 0

/-- Whether a string is a canonical array-index property key in JavaScript:
nonempty, all decimal digits, no leading zero (except the string "0" itself),
and numerically below 2^32 − 1. -/
def isArrayIndex (s : String) : Bool :=
  (!s.toList.isEmpty) && s.toList.all (·.isDigit)
    && (s.toList.head? ≠ some '0' || s = "0")
    && digitsVal s < 4294967295

/-- The resume-position mapping, as the ordered key/value pairs of the
persisted JSON object text. -/
abbrev Positions := List (String × ℚ)

/-- Embeds `getPosition` of `PlaybackStorage`: the stored offset for an
identifier, or `none` (the source returns `null`) when absent. -/
def getPosition : Positions → String → Option ℚ
  | [], _ => none
  | p :: ps, episodeId => if p.1 = episodeId then some p.2 else getPosition ps episodeId

/-- JavaScript property assignment `positions[episodeId] = position`: an
existing key keeps its place in the order and gets the new value; a fresh key
is appended at the end of the insertion order. -/
def objSet (ps : Positions) (episodeId : String) (position : ℚ) : Positions :=
  if ps.any (fun p => p.1 = episodeId) then
    ps.map (fun p => if p.1 = episodeId then (p.1, position) else p)
  else
    ps ++ [(episodeId, position)]

/-- Deleting a list of keys from the object (`delete positions[k]` for each). -/
def objDeleteList (ps : Positions) (ks : List String) : Positions :=
  ps.filter (fun p => decide (p.1 ∉ ks))

/-- Order-preserving insertion by array-index numeric value. -/
def insertByIdx (p : String × ℚ) : Positions → Positions
  | [] => [p]
  | q :: qs => if digitsVal p.1 ≤ digitsVal q.1 then p :: q :: qs else q :: insertByIdx p qs

/-- Sort entries by the numeric value of their (array-index) keys. -/
def sortByIdx (ps : Positions) : Positions :=
  ps.foldr insertByIdx []

/-- JavaScript own-property enumeration order of the object: canonical
array-index keys first in ascending numeric order, then every other key in
insertion order.  `Object.keys` and `JSON.stringify` both follow it. -/
def jsEnum (ps : Positions) : Positions :=
  sortByIdx (ps.filter (fun p => isArrayIndex p.1))
    ++ ps.filter (fun p => !isArrayIndex p.1)

/-- Embeds the eligibility test of `PlaybackStorage.savePosition`:
`duration ? position > 10 && position < duration - 30 : position > 10`.
The scrutinee is a JavaScript truthiness test, so a duration of 0 selects the
no-duration branch (`NaN`, the other falsy number, has no rational model). -/
def shouldSave (position : ℚ) (duration : Option ℚ) : Bool :=
  match duration with
  | some d => if d = 0 then decide (position > 10)
              else decide (position > 10 ∧ position < d - 30)
  | none => decide (position > 10)

/-- Embeds `PlaybackStorage.savePosition`.  On eligibility failure the stored
text is untouched; otherwise the entry is inserted, the oldest keys in
enumeration order are deleted while the key count exceeds `maxItems`, and the
object is rewritten (in enumeration order, as `JSON.stringify` emits it). -/
def savePosition (maxItems : ℕ) (ps : Positions) (episodeId : String)
    (position : ℚ) (duration : Option ℚ) : Positions :=
  if shouldSave position duration then
    let ps1 := objSet ps episodeId position
    let keys := (jsEnum ps1).map Prod.fst
    let ps2 :=
      if keys.length > maxItems then
        objDeleteList ps1 (keys.take (keys.length - maxItems))
      else ps1
    jsEnum ps2
  else ps

/-- Embeds `PlaybackStorage.removePosition`: deletes the entry if present and
rewrites the object; otherwise performs no write. -/
def removePosition (ps : Positions) (episodeId : String) : Positions :=
  if ps.any (fun p => p.1 = episodeId) then
    jsEnum (ps.filter (fun p => decide (¬ p.1 = episodeId)))
  else ps

/-- Embeds `PlaybackStorage.cleanupPositions`: deletes every entry whose key
is not in the current identifier list, rewriting only when something changed. -/
def cleanupPositions (ps : Positions) (currentEpisodeIds : List String) : Positions :=
  if ps.any (fun p => decide (p.1 ∉ currentEpisodeIds)) then
    jsEnum (ps.filter (fun p => decide (p.1 ∈ currentEpisodeIds)))
  else ps

/-! ### Player-state store (`src/core/player-state.ts`) -/

/-- Parsed JSON values, for the unvalidated `JSON.parse` result that
`PlayerStateStorage.loadState` returns. -/
inductive Json where
  | null
  | bool (b : Bool)
  | num (q : ℚ)
  | str (s : String)
  | arr (elems : List Json)
  | obj (fields : List (String × Json))

/-- A persisted localStorage cell holding JSON text: `none` when the key is
absent, `Except.error ()` when the text does not parse, `Except.ok v` when it
parses to `v`. -/
abbrev StoredCell := Option (Except Unit Json)

/-- The `PlayerState` record of `src/core/types.ts`. -/
structure PlayerState where
  currentEpisodeIndex : ℤ
  volume : ℚ

/-- `JSON.stringify` image of a `PlayerState` record. -/
def stateToJson (state : PlayerState) : Json :=
  Json.obj [("currentEpisodeIndex", Json.num (state.currentEpisodeIndex : ℚ)),
            ("volume", Json.num state.volume)]

/-- Embeds `PlayerStateStorage.saveState`: overwrites the cell wholesale. -/
def saveState (state : PlayerState) : StoredCell :=
  some (Except.ok (stateToJson state))

/-- Embeds `PlayerStateStorage.loadState`: returns the parsed value of the
stored text with no shape validation; a missing key, unparsable text, or the
JSON text "null" all read back as absent (the source returns `null`). -/
def loadState (cell : StoredCell) : Option Json :=
  match cell with
  | none => none
  | some (Except.error _) => none
  | some (Except.ok Json.null) => none
  | some (Except.ok v) => some v

/-- The shape `loadState` would have to produce to be a well-formed player
state: exactly the object `JSON.stringify` writes for some record, with an
integral episode index. -/
def isWellFormedState : Json → Bool
  | Json.obj [("currentEpisodeIndex", Json.num i), ("volume", Json.num _)] => i.den = 1
  | _ => false

/-- Embeds `PlayerStateStorage.saveSpeed`: stores `speed.toString()` with no
validation.  A finite double round-trips exactly through
`toString`/`parseFloat`, so the cell is modelled at the value level. -/
def saveSpeed (speed : ℚ) : Option ℚ :=
  some speed

/-- Embeds `PlayerStateStorage.loadSpeed`: absent cell reads as absent, and a
parsed value is accepted only inside the closed interval `[0.5, 3]`. -/
def loadSpeed (cell : Option ℚ) : Option ℚ :=
  match cell with
  | none => none
  | some speed => if 0.5 ≤ speed ∧ speed ≤ 3 then some speed else none

/-! ### Episodes and the content provider (`src/core/episode-provider.ts`) -/

/-- The `Episode` record of `src/core/types.ts`. -/
structure Episode where
  id : String
  feedId : ℤ
  feedName : String
  title : String
  audioUrl : String
  pubDate : String
  pubDateTime : Option String := none
  pubTimestamp : Option ℤ := none
  duration : Option ℚ := none
  image : Option String := none
  feedImage : Option String := none
  artwork : Option String := none

/-- The provider's cache record `{ episodes, timestamp }`. -/
structure CacheEntry where
  episodes : List Episode
  timestamp : ℤ

/-- Provider-owned persistent state: the cache cell. -/
structure ProviderState where
  cache : Option CacheEntry

/-- Outcome of one `fetch` attempt, after response-status check and body
parse: `ok es` is a 2xx response whose body held the episode list `es` (an
absent `episodes` field behaves as the empty list), `fail e` is a network
error, a non-2xx status, or a body parse failure. -/
inductive FetchOutcome where
  | ok (episodes : List Episode)
  | fail (err : String)

/-- Embeds `FetchEpisodeProvider.readCache`: absent or unparsable text reads
as `null`; an expired entry reads as `null` unless `ignoreExpiry`; an entry
whose list is empty reads as `null`; otherwise the cached list. -/
def readCache (cacheTTL now : ℤ) (s : ProviderState) (ignoreExpiry : Bool) :
    Option (List Episode) :=
  match s.cache with
  | none => none
  | some entry =>
    if !ignoreExpiry && decide (now - entry.timestamp ≥ cacheTTL) then none
    else if entry.episodes.isEmpty then none
    else some entry.episodes

/-- Embeds `FetchEpisodeProvider.writeCache`: overwrites the cache cell with
the list and the current clock. -/
def writeCache (now : ℤ) (episodes : List Episode) : ProviderState :=
  { cache := some { episodes := episodes, timestamp := now } }

/-- Embeds `FetchEpisodeProvider.getEpisodes`.  The `for` loop over attempts
0 and 1 is unrolled (its bound is the literal 2 in the source); `fetches`
gives the outcome of each network attempt in order, and the result carries
the returned value or thrown error, the final provider state, and how many
network calls were made. -/
def getEpisodes (cacheTTL now : ℤ) (fetches : ℕ → FetchOutcome)
    (s : ProviderState) : Except String (List Episode) × ProviderState × ℕ :=
  match readCache cacheTTL now s false with
  | some cached => (Except.ok cached, s, 0)
  | none =>
    match fetches 0 with
    | FetchOutcome.ok es =>
      if es.length > 0 then (Except.ok es, writeCache now es, 1)
      else (Except.ok [], s, 1)
    | FetchOutcome.fail _ =>
      match fetches 1 with
      | FetchOutcome.ok es =>
        if es.length > 0 then (Except.ok es, writeCache now es, 2)
        else (Except.ok [], s, 2)
      | FetchOutcome.fail e2 =>
        match readCache cacheTTL now s true with
        | some stale => (Except.ok stale, s, 2)
        | none => (Except.error e2, s, 2)

/-- Cache well-formedness: the provider only ever writes non-empty lists, so
a present entry holds a non-empty list. -/
def cacheWF (s : ProviderState) : Prop :=
  ∀ entry, s.cache = some entry → entry.episodes ≠ []

/-! ### Playback engine (`src/core/audio-engine.ts`), at the state contract
level consumed by the controller -/

/-- State of the engine's wrapped audio element together with the engine's
own fields.  `playResolves` is the environment's answer to the next
`audio.play()` call (the promise resolves or rejects). -/
structure Engine where
  src : Option String
  currentTime : ℚ
  duration : Option ℚ
  volume : ℚ
  playbackRate : ℚ
  isPlaying : Bool
  playResolves : Bool

/-- Embeds `AudioEngine.hasSrc` (a cleared `audio.src` reads back as the page
URL in the browser; both the never-set and the cleared cell are `none` here). -/
def hasSrc (e : Engine) : Bool :=
  e.src.isSome

/-- Embeds `AudioEngine.load`: replaces the source (obscuring the old
duration until new metadata arrives) and seeks to `startPosition` when it is
non-null and strictly positive. -/
def engineLoad (e : Engine) (url : String) (startPosition : Option ℚ) : Engine :=
  { e with
    src := some url
    duration := none
    currentTime :=
      match startPosition with
      | some p => if 0 < p then p else 0
      | none => 0 }

/-! ### Orchestrator (`src/ui/player-controller.ts`) -/

/-- Domain events the controller emits to its observers (`PlayerEventMap`). -/
inductive PlayerEvent where
  | episodeChange (episode : Episode) (index : ℤ)
  | episodesLoaded (episodes : List Episode)
  | episodeDisplay (imageUrl title showName : String)
  | expand
  | close

/-- Embeds `getEpisodeImage` of `src/ui/utils.ts`:
`episode.image || episode.feedImage || episode.artwork || ''`, where both a
missing field and an empty string are falsy. -/
def getEpisodeImage (e : Episode) : String :=
  match e.image with
  | some s => if s ≠ "" then s else
      match e.feedImage with
      | some t => if t ≠ "" then t else (e.artwork.getD "")
      | none => e.artwork.getD ""
  | none =>
    match e.feedImage with
    | some t => if t ≠ "" then t else (e.artwork.getD "")
    | none => e.artwork.getD ""

/-- Placeholder episode used for the (unreachable) out-of-range list access
inside the bounds-guarded branch of `loadEpisode`. -/
def defaultEpisode : Episode :=
  { id := "", feedId := 0, feedName := "", title := "", audioUrl := "", pubDate := "" }

/-- The controller's configuration fields that its embedded operations read
(`ResolvedConfig`, key-naming fields omitted since cells are modelled
directly). -/
structure Config where
  maxStoredPositions : ℕ
  positionSaveInterval : ℕ
  skipSeconds : ℚ
  episodeCacheTTL : ℤ

/-- State of a `PlayerController` instance together with the persistence
cells it owns: the episode list, the selected index, the engine, the
resume-position object, the player-state cell, the speed cell, whether the
periodic save timer is live, and the stream of emitted domain events. -/
structure Controller where
  config : Config
  episodes : List Episode
  currentIndex : ℤ
  engine : Engine
  positions : Positions
  stateCell : StoredCell
  speedCell : Option ℚ
  saveIntervalActive : Bool
  events : List PlayerEvent

/-- The engine-play step of `PlayerController.play` once an episode is
selected: `await this.engine.play(); this.startPositionSaving()`.  A rejected
play leaves the timer stopped and the flag false (the engine emits an error
event and rethrows; the controller does not catch it). -/
def enginePlayStep (s : Controller) : Controller :=
  if s.engine.playResolves then
    { s with engine := { s.engine with isPlaying := true }, saveIntervalActive := true }
  else
    { s with engine := { s.engine with isPlaying := false } }

/-- Embeds `PlayerController.loadEpisode`.  Out-of-bounds indices return
before touching anything.  In bounds: set the index, look up the saved resume
position, load the engine with it, persist the new player state, emit the
`episode-change` and `episode-display` events, and play if `autoPlay`.  The
`this.play()` call in the `autoPlay` branch runs with `currentIndex = index ≥ 0`
and a non-empty list, so it reduces to the engine-play step; it is embedded in
that reduced form. -/
def loadEpisode (s : Controller) (index : ℤ) (autoPlay : Bool) : Controller :=
  if index < 0 ∨ (s.episodes.length : ℤ) ≤ index then s
  else
    let episode := s.episodes.getD index.toNat defaultEpisode
    let savedPosition := getPosition s.positions episode.id
    let s1 :=
      { s with
        currentIndex := index
        engine := engineLoad s.engine episode.audioUrl savedPosition
        stateCell := saveState { currentEpisodeIndex := index, volume := s.engine.volume }
        events := s.events ++
          [PlayerEvent.episodeChange episode index,
           PlayerEvent.episodeDisplay (getEpisodeImage episode) episode.title episode.feedName] }
    if autoPlay then enginePlayStep s1 else s1

/-- Embeds `PlayerController.saveCurrentPosition`: a no-op unless an episode
is selected and the engine has a source; delegates to the store only when the
engine clock is past 10 seconds. -/
def saveCurrentPosition (s : Controller) : Controller :=
  if s.currentIndex < 0 ∨ ¬ hasSrc s.engine then s
  else
    let episode := s.episodes.getD s.currentIndex.toNat defaultEpisode
    if s.engine.currentTime > 10 then
      { s with positions :=
          (savePosition s.config.maxStoredPositions s.positions episode.id
            s.engine.currentTime episode.duration) }
    else s

/-- The refinement candidate for `saveCurrentPosition`: identical except that
it delegates to `PlaybackStorage.savePosition` unconditionally whenever an
episode is selected and a source is loaded. -/
def saveCurrentPositionUncond (s : Controller) : Controller :=
  if s.currentIndex < 0 ∨ ¬ hasSrc s.engine then s
  else
    let episode := s.episodes.getD s.currentIndex.toNat defaultEpisode
    { s with positions :=
        (savePosition s.config.maxStoredPositions s.positions episode.id
          s.engine.currentTime episode.duration) }

/-! ### Sample states, used to evaluate the theorems on concrete inputs -/

/-- A fetch oracle whose two attempts both fail. -/
def failFetches : ℕ → FetchOutcome :=
  fun n => if n = 0 then FetchOutcome.fail "first error" else FetchOutcome.fail "second error"

/-- A fetch oracle whose first attempt fails and whose second succeeds. -/
def retryFetches : ℕ → FetchOutcome :=
  fun n => if n = 0 then FetchOutcome.fail "first error"
           else FetchOutcome.ok [defaultEpisode]

/-- A provider state with no cache entry. -/
def emptyProvider : ProviderState := { cache := none }

/-- A one-episode cache entry written at clock 0. -/
def sampleEntry : CacheEntry := { episodes := [defaultEpisode], timestamp := 0 }

/-- A provider state holding `sampleEntry`. -/
def cachedProvider : ProviderState := { cache := some sampleEntry }

/-- An engine with nothing loaded. -/
def sampleEngine : Engine :=
  { src := none, currentTime := 0, duration := none, volume := 1,
    playbackRate := 1, isPlaying := false, playResolves := true }

/-- The resolved default configuration (`DEFAULT_CONFIG` of `src/core/types.ts`). -/
def sampleConfig : Config :=
  { maxStoredPositions := 100, positionSaveInterval := 5000,
    skipSeconds := 30, episodeCacheTTL := 3600000 }

/-- A freshly constructed controller with an empty episode list. -/
def sampleController : Controller :=
  { config := sampleConfig, episodes := [], currentIndex := -1,
    engine := sampleEngine, positions := [], stateCell := none,
    speedCell := none, saveIntervalActive := false, events := [] }

/-! ### Helper lemmas: the resume-position store -/

theorem any_key_iff (ps : Positions) (id : String) :
    (ps.any fun p => decide (p.1 = id)) = true ↔ id ∈ ps.map Prod.fst := by
  simp [List.any_eq_true]

theorem shouldSave_false_of_le {p : ℚ} (dur : Option ℚ) (h : p ≤ 10) :
    shouldSave p dur = false := by
  have hnot : ¬ p > 10 := not_lt.mpr h
  cases dur with
  | none => simpa [shouldSave] using hnot
  | some d =>
    by_cases hd : d = 0
    · simpa [shouldSave, hd] using hnot
    · simp only [shouldSave, if_neg hd, decide_eq_false_iff_not]
      rintro ⟨hp, -⟩
      exact hnot hp

theorem savePosition_not_eligible {maxItems : ℕ} {ps : Positions} {id : String}
    {p : ℚ} {dur : Option ℚ} (h : shouldSave p dur = false) :
    savePosition maxItems ps id p dur = ps := by
  simp [savePosition, h]

theorem getPosition_eq_none_of_not_mem {ps : Positions} {a : String}
    (h : a ∉ ps.map Prod.fst) : getPosition ps a = none := by
  induction ps with
  | nil => rfl
  | cons p ps ih =>
    simp only [List.map_cons, List.mem_cons, not_or] at h
    have hne : ¬ p.1 = a := fun he => h.1 he.symm
    simp only [getPosition, if_neg hne]
    exact ih h.2

theorem getPosition_of_mem {ps : Positions} {a : String} {b : ℚ}
    (hnd : (ps.map Prod.fst).Nodup) (h : (a, b) ∈ ps) : getPosition ps a = some b := by
  induction ps with
  | nil => cases h
  | cons p ps ih =>
    simp only [List.map_cons, List.nodup_cons] at hnd
    rcases List.mem_cons.mp h with h1 | h1
    · rw [← h1]
      simp [getPosition]
    · have hne : ¬ p.1 = a := by
        intro he
        exact hnd.1 (he ▸ List.mem_map_of_mem Prod.fst h1)
      simp only [getPosition, if_neg hne]
      exact ih hnd.2 h1

theorem getPosition_perm {l₁ l₂ : Positions} (h : l₁.Perm l₂) :
    (l₁.map Prod.fst).Nodup → ∀ a, getPosition l₁ a = getPosition l₂ a := by
  induction h with
  | nil => intro _ a; rfl
  | cons x _ ih =>
    intro hnd a
    simp only [List.map_cons, List.nodup_cons] at hnd
    by_cases hx : x.1 = a
    · simp [getPosition, hx]
    · simp only [getPosition, if_neg hx]
      exact ih hnd.2 a
  | swap x y l =>
    intro hnd a
    simp only [List.map_cons, List.nodup_cons, List.mem_cons, not_or] at hnd
    have hxy : ¬ y.1 = x.1 := hnd.1.1
    by_cases hy : y.1 = a <;> by_cases hx : x.1 = a
    · exact absurd (hy.trans hx.symm) hxy
    · simp [getPosition, hy, hx]
    · simp [getPosition, hy, hx]
    · simp [getPosition, hy, hx]
  | trans h₁ _ ih₁ ih₂ =>
    intro hnd a
    rw [ih₁ hnd a, ih₂ (((h₁.map Prod.fst).nodup_iff).mp hnd) a]

theorem objSet_of_not_mem {ps : Positions} {id : String} (p : ℚ)
    (h : id ∉ ps.map Prod.fst) : objSet ps id p = ps ++ [(id, p)] := by
  unfold objSet
  rw [if_neg]
  intro hc
  exact h ((any_key_iff ps id).mp hc)

theorem getPosition_append_self {ps : Positions} {id : String} (p : ℚ)
    (h : id ∉ ps.map Prod.fst) :
    getPosition (ps ++ [(id, p)]) id = some p := by
  induction ps with
  | nil => simp [getPosition]
  | cons q ps ih =>
    simp only [List.map_cons, List.mem_cons, not_or] at h
    have hq : ¬ q.1 = id := fun he => h.1 he.symm
    simpa [getPosition, hq] using ih h.2

theorem getPosition_update_self {ps : Positions} {id : String} (p : ℚ)
    (hmem : id ∈ ps.map Prod.fst) :
    getPosition (ps.map fun q => if q.1 = id then (q.1, p) else q) id = some p := by
  induction ps with
  | nil => simp at hmem
  | cons q ps ih =>
    by_cases hq : q.1 = id
    · simp [getPosition, hq]
    · simp only [List.map_cons, List.mem_cons] at hmem
      rcases hmem with hmem | hmem
      · exact absurd hmem.symm hq
      · simp only [List.map_cons, if_neg hq, getPosition]
        exact ih hmem

theorem getPosition_objSet_self (ps : Positions) (id : String) (p : ℚ) :
    getPosition (objSet ps id p) id = some p := by
  unfold objSet
  by_cases h : (ps.any fun q => decide (q.1 = id)) = true
  · rw [if_pos h]
    exact getPosition_update_self p ((any_key_iff ps id).mp h)
  · rw [if_neg h]
    exact getPosition_append_self p (fun hc => h ((any_key_iff ps id).mpr hc))

theorem objSet_keys (ps : Positions) (id : String) (p : ℚ) :
    (objSet ps id p).map Prod.fst =
      if id ∈ ps.map Prod.fst then ps.map Prod.fst else ps.map Prod.fst ++ [id] := by
  unfold objSet
  by_cases h : id ∈ ps.map Prod.fst
  · rw [if_pos ((any_key_iff ps id).mpr h), if_pos h, List.map_map]
    apply List.map_congr_left
    intro q _
    by_cases hq : q.1 = id <;> simp [hq]
  · rw [if_neg (fun hc => h ((any_key_iff ps id).mp hc)), if_neg h]
    simp

theorem objSet_keys_nodup {ps : Positions} {id : String} (p : ℚ)
    (hnd : (ps.map Prod.fst).Nodup) : ((objSet ps id p).map Prod.fst).Nodup := by
  rw [objSet_keys]
  by_cases h : id ∈ ps.map Prod.fst
  · simpa [h] using hnd
  · simp only [if_neg h]
    refine List.Nodup.append hnd (List.nodup_singleton id) ?_
    intro a ha hb
    rw [List.mem_singleton] at hb
    exact h (hb ▸ ha)

theorem objSet_length_le (ps : Positions) (id : String) (p : ℚ) :
    (objSet ps id p).length ≤ ps.length + 1 := by
  unfold objSet
  by_cases h : (ps.any fun q => decide (q.1 = id)) = true
  · simp [h]
  · simp [h]

theorem insertByIdx_perm (p : String × ℚ) (l : Positions) :
    (insertByIdx p l).Perm (p :: l) := by
  induction l with
  | nil => exact List.Perm.refl _
  | cons q qs ih =>
    unfold insertByIdx
    by_cases h : digitsVal p.1 ≤ digitsVal q.1
    · rw [if_pos h]
    · rw [if_neg h]
      exact (ih.cons q).trans (List.Perm.swap p q qs)

theorem sortByIdx_perm (l : Positions) : (sortByIdx l).Perm l := by
  induction l with
  | nil => exact List.Perm.refl _
  | cons q qs ih =>
    exact (insertByIdx_perm q (sortByIdx qs)).trans (ih.cons q)

theorem jsEnum_perm (ps : Positions) : (jsEnum ps).Perm ps := by
  unfold jsEnum
  exact ((sortByIdx_perm _).append_right _).trans (List.filter_append_perm _ ps)

theorem jsEnum_eq_self {ps : Positions} (h : ∀ pr ∈ ps, isArrayIndex pr.1 = false) :
    jsEnum ps = ps := by
  unfold jsEnum
  have h1 : ps.filter (fun p => isArrayIndex p.1) = [] := by
    simp only [List.filter_eq_nil_iff]
    intro a ha
    simp [h a ha]
  have h2 : ps.filter (fun p => !isArrayIndex p.1) = ps := by
    apply List.filter_eq_self.mpr
    intro a ha
    simp [h a ha]
  rw [h1, h2]
  rfl

theorem objDeleteList_nil (ps : Positions) : objDeleteList ps [] = ps := by
  unfold objDeleteList
  simp

theorem objDeleteList_cons (ps : Positions) (k : String) (ks : List String) :
    objDeleteList ps (k :: ks) =
      objDeleteList (ps.filter fun p => decide (¬ p.1 = k)) ks := by
  unfold objDeleteList
  rw [List.filter_filter]
  apply List.filter_congr
  intro a _
  by_cases h1 : a.1 = k <;> by_cases h2 : a.1 ∈ ks <;> simp [h1, h2]

theorem length_filter_key_ne {ps : Positions} {k : String}
    (hnd : (ps.map Prod.fst).Nodup) (hk : k ∈ ps.map Prod.fst) :
    (ps.filter fun p => decide (¬ p.1 = k)).length = ps.length - 1 := by
  induction ps with
  | nil => simp at hk
  | cons q ps ih =>
    simp only [List.map_cons, List.nodup_cons] at hnd
    by_cases hq : q.1 = k
    · have hrest : ps.filter (fun p => decide (¬ p.1 = k)) = ps := by
        apply List.filter_eq_self.mpr
        intro a ha
        simp only [decide_eq_true_eq]
        intro he
        exact hnd.1 (hq ▸ he ▸ List.mem_map_of_mem Prod.fst ha)
      rw [List.filter_cons, if_neg (by simp [hq]), hrest]
      simp
    · simp only [List.map_cons, List.mem_cons] at hk
      rcases hk with hk | hk
      · exact absurd hk.symm hq
      · have hlen : 0 < ps.length := by
          rcases List.mem_map.mp hk with ⟨a, ha, -⟩
          exact List.length_pos.mpr (fun he => by simp [he] at ha)
        rw [List.filter_cons, if_pos (by simp [hq]), List.length_cons,
          ih hnd.2 hk, List.length_cons]
        omega

theorem objDeleteList_length :
    ∀ (ks : List String) (ps : Positions), (ps.map Prod.fst).Nodup → ks.Nodup →
      (∀ k ∈ ks, k ∈ ps.map Prod.fst) →
      (objDeleteList ps ks).length = ps.length - ks.length := by
  intro ks
  induction ks with
  | nil =>
    intro ps _ _ _
    simp [objDeleteList_nil]
  | cons k ks ih =>
    intro ps hnd hknd hmem
    rw [objDeleteList_cons]
    have hsub : (ps.filter fun p => decide (¬ p.1 = k)).Sublist ps := List.filter_sublist ps
    have hnd1 : ((ps.filter fun p => decide (¬ p.1 = k)).map Prod.fst).Nodup :=
      List.Nodup.sublist (hsub.map Prod.fst) hnd
    simp only [List.nodup_cons] at hknd
    have hmem1 : ∀ k' ∈ ks, k' ∈ (ps.filter fun p => decide (¬ p.1 = k)).map Prod.fst := by
      intro k' hk'
      rcases List.mem_map.mp (hmem k' (List.mem_cons_of_mem k hk')) with ⟨a, ha, hae⟩
      refine List.mem_map.mpr ⟨a, List.mem_filter.mpr ⟨ha, ?_⟩, hae⟩
      simp only [decide_eq_true_eq]
      intro he
      apply hknd.1
      have hkk : k' = k := hae.symm.trans he
      exact hkk ▸ hk'
    rw [ih _ hnd1 hknd.2 hmem1,
      length_filter_key_ne hnd (hmem k (List.mem_cons_self k ks))]
    have : 0 < ps.length := by
      rcases List.mem_map.mp (hmem k (List.mem_cons_self k ks)) with ⟨a, ha, -⟩
      exact List.length_pos.mpr (fun he => by simp [he] at ha)
    simp only [List.length_cons]
    omega

theorem objDeleteList_take_keys :
    ∀ {ps : Positions}, (ps.map Prod.fst).Nodup →
      ∀ k, objDeleteList ps ((ps.map Prod.fst).take k) = ps.drop k := by
  intro ps
  induction ps with
  | nil =>
    intro _ k
    simp [objDeleteList]
  | cons p ps ih =>
    intro hnd k
    simp only [List.map_cons, List.nodup_cons] at hnd
    cases k with
    | zero => simpa using objDeleteList_nil (p :: ps)
    | succ k =>
      simp only [List.map_cons, List.take_succ_cons, List.drop_succ_cons]
      rw [objDeleteList_cons]
      have hfil : (p :: ps).filter (fun q => decide (¬ q.1 = p.1)) = ps := by
        rw [List.filter_cons, if_neg (by simp)]
        apply List.filter_eq_self.mpr
        intro a ha
        simp only [decide_eq_true_eq]
        intro he
        exact hnd.1 (he ▸ List.mem_map_of_mem Prod.fst ha)
      rw [hfil]
      exact ih hnd.2 k

theorem savePosition_length_le {maxItems : ℕ} {ps : Positions} (id : String)
    (p : ℚ) (dur : Option ℚ) (hnd : (ps.map Prod.fst).Nodup)
    (hle : ps.length ≤ maxItems) :
    (savePosition maxItems ps id p dur).length ≤ maxItems := by
  by_cases hs : shouldSave p dur = true
  · simp only [savePosition, hs, if_true]
    have hnd1 : ((objSet ps id p).map Prod.fst).Nodup := objSet_keys_nodup p hnd
    have hperm : (jsEnum (objSet ps id p)).Perm (objSet ps id p) := jsEnum_perm _
    have hkl : ((jsEnum (objSet ps id p)).map Prod.fst).length = (objSet ps id p).length := by
      rw [List.length_map, hperm.length_eq]
    by_cases hbig : ((jsEnum (objSet ps id p)).map Prod.fst).length > maxItems
    · rw [if_pos hbig]
      have hknd : ((jsEnum (objSet ps id p)).map Prod.fst).Nodup :=
        ((hperm.map Prod.fst).nodup_iff).mpr hnd1
      have htknd : (((jsEnum (objSet ps id p)).map Prod.fst).take
          (((jsEnum (objSet ps id p)).map Prod.fst).length - maxItems)).Nodup :=
        List.Nodup.sublist (List.take_sublist _ _) hknd
      have htmem : ∀ k ∈ ((jsEnum (objSet ps id p)).map Prod.fst).take
            (((jsEnum (objSet ps id p)).map Prod.fst).length - maxItems),
          k ∈ (objSet ps id p).map Prod.fst := by
        intro k hk
        exact ((hperm.map Prod.fst).mem_iff).mp ((List.take_sublist _ _).subset hk)
      rw [(jsEnum_perm _).length_eq,
        objDeleteList_length _ _ hnd1 htknd htmem, List.length_take]
      omega
    · rw [if_neg hbig]
      rw [hperm.length_eq]
      omega
  · simp only [savePosition, hs, if_false]
    exact hle

theorem savePosition_step {maxItems : ℕ} {ps : Positions} {id : String} {p : ℚ}
    (hidxs : ∀ pr ∈ ps, isArrayIndex pr.1 = false) (hidx : isArrayIndex id = false)
    (hnd : (ps.map Prod.fst).Nodup) (hfresh : id ∉ ps.map Prod.fst)
    (hp : (10:ℚ) < p) :
    savePosition maxItems ps id p none =
      (ps ++ [(id, p)]).drop (ps.length + 1 - maxItems) := by
  have hs : shouldSave p none = true := by
    simp only [shouldSave, decide_eq_true_eq]
    exact hp
  have hall : ∀ pr ∈ ps ++ [(id, p)], isArrayIndex pr.1 = false := by
    intro pr hpr
    rcases List.mem_append.mp hpr with h | h
    · exact hidxs pr h
    · rw [List.mem_singleton] at h
      rw [h]
      exact hidx
  have hndl : ((ps ++ [(id, p)]).map Prod.fst).Nodup := by
    rw [List.map_append]
    refine List.Nodup.append hnd (by simp) ?_
    intro a ha hb
    simp only [List.map_cons, List.map_nil, List.mem_singleton] at hb
    exact hfresh (hb ▸ ha)
  simp only [savePosition, hs, if_true, objSet_of_not_mem p hfresh,
    jsEnum_eq_self hall]
  by_cases hbig : ((ps ++ [(id, p)]).map Prod.fst).length > maxItems
  · rw [if_pos hbig]
    rw [objDeleteList_take_keys hndl]
    rw [jsEnum_eq_self (fun pr hpr => hall pr (List.mem_of_mem_drop hpr))]
    congr 1
    simp [List.length_map, List.length_append]
  · rw [if_neg hbig]
    rw [jsEnum_eq_self hall]
    simp only [List.length_map, List.length_append, List.length_cons,
      List.length_nil] at hbig ⊢
    have hz : ps.length + 1 - maxItems = 0 := by omega
    rw [hz, List.drop_zero]

theorem foldl_savePosition {maxItems : ℕ} :
    ∀ (l : List (String × ℚ)),
      (l.map Prod.fst).Nodup →
      (∀ pr ∈ l, isArrayIndex pr.1 = false) →
      (∀ pr ∈ l, (10:ℚ) < pr.2) →
      l.foldl (fun ps pr => savePosition maxItems ps pr.1 pr.2 none) [] =
        l.drop (l.length - maxItems) := by
  intro l
  induction l using List.reverseRecOn with
  | nil =>
    intro _ _ _
    simp
  | append_singleton l' x ih =>
    intro hnd hidx hpos
    have hnd' : (l'.map Prod.fst).Nodup := by
      rw [List.map_append] at hnd
      exact hnd.of_append_left
    have hfreshx : x.1 ∉ l'.map Prod.fst := by
      rw [List.map_append] at hnd
      intro hmem
      exact (List.disjoint_of_nodup_append hnd) hmem (by simp)
    rw [List.foldl_append, List.foldl_cons, List.foldl_nil,
      ih hnd' (fun pr h => hidx pr (List.mem_append_left _ h))
        (fun pr h => hpos pr (List.mem_append_left _ h))]
    have hstep := @savePosition_step maxItems (l'.drop (l'.length - maxItems)) x.1 x.2
      (fun pr hpr => hidx pr (List.mem_append_left _ (List.mem_of_mem_drop hpr)))
      (hidx x (List.mem_append_right _ (by simp)))
      (List.Nodup.sublist ((List.drop_sublist _ _).map Prod.fst) hnd')
      (fun hmem => hfreshx ((List.drop_sublist _ _).map Prod.fst |>.subset hmem))
      (hpos x (List.mem_append_right _ (by simp)))
    rw [hstep, List.length_drop,
      ← List.drop_append_of_le_length (by omega : l'.length - maxItems ≤ l'.length),
      List.drop_drop]
    congr 1
    simp only [List.length_append, List.length_cons, List.length_nil]
    omega

theorem savePosition_eligible_lookup {maxItems : ℕ} {ps : Positions} {id : String}
    {p : ℚ} {dur : Option ℚ} (hnd : (ps.map Prod.fst).Nodup)
    (hroom : ps.length < maxItems) (hs : shouldSave p dur = true) :
    getPosition (savePosition maxItems ps id p dur) id = some p := by
  simp only [savePosition, hs, if_true]
  have hnd1 : ((objSet ps id p).map Prod.fst).Nodup := objSet_keys_nodup p hnd
  have hperm : (jsEnum (objSet ps id p)).Perm (objSet ps id p) := jsEnum_perm _
  have hkl : ((jsEnum (objSet ps id p)).map Prod.fst).length = (objSet ps id p).length := by
    rw [List.length_map, hperm.length_eq]
  have hsm : ¬ ((jsEnum (objSet ps id p)).map Prod.fst).length > maxItems := by
    have := objSet_length_le ps id p
    omega
  rw [if_neg hsm,
    getPosition_perm hperm (((hperm.map Prod.fst).nodup_iff).mpr hnd1) id]
  exact getPosition_objSet_self ps id p

/-! ### Helper lemmas: the content provider -/

theorem isEmpty_eq_false_of_ne {α : Type _} {l : List α} (h : l ≠ []) :
    l.isEmpty = false := by
  cases l with
  | nil => exact absurd rfl h
  | cons a t => rfl

theorem readCache_some_ne_nil {cacheTTL now : ℤ} {s : ProviderState} {b : Bool}
    {es : List Episode} (h : readCache cacheTTL now s b = some es) : es ≠ [] := by
  cases hc : s.cache with
  | none => simp [readCache, hc] at h
  | some entry =>
    simp only [readCache, hc] at h
    by_cases hx : (!b && decide (now - entry.timestamp ≥ cacheTTL)) = true
    · rw [if_pos hx] at h; cases h
    · rw [if_neg hx] at h
      by_cases he : entry.episodes.isEmpty = true
      · rw [if_pos he] at h; cases h
      · rw [if_neg he] at h
        injection h with h
        rw [← h]
        simpa using he

theorem readCache_fresh {cacheTTL now : ℤ} {s : ProviderState} {entry : CacheEntry}
    (hc : s.cache = some entry) (hne : entry.episodes ≠ [])
    (hfresh : now - entry.timestamp < cacheTTL) :
    readCache cacheTTL now s false = some entry.episodes := by
  simp only [readCache, hc]
  rw [if_neg (by simp [not_le.mpr hfresh]), if_neg (by simp [isEmpty_eq_false_of_ne hne])]

theorem readCache_expired {cacheTTL now : ℤ} {s : ProviderState} {entry : CacheEntry}
    (hc : s.cache = some entry) (hexp : now - entry.timestamp ≥ cacheTTL) :
    readCache cacheTTL now s false = none := by
  simp only [readCache, hc]
  rw [if_pos (by simp [hexp])]

theorem readCache_stale {cacheTTL now : ℤ} {s : ProviderState} {entry : CacheEntry}
    (hc : s.cache = some entry) (hne : entry.episodes ≠ []) :
    readCache cacheTTL now s true = some entry.episodes := by
  simp only [readCache, hc]
  rw [if_neg (by simp), if_neg (by simp [isEmpty_eq_false_of_ne hne])]

theorem readCache_none {cacheTTL now : ℤ} {s : ProviderState} (hc : s.cache = none)
    (b : Bool) : readCache cacheTTL now s b = none := by
  simp [readCache, hc]

theorem getEpisodes_of_fresh {cacheTTL now : ℤ} {fetches : ℕ → FetchOutcome}
    {s : ProviderState} {cached : List Episode}
    (hrc : readCache cacheTTL now s false = some cached) :
    getEpisodes cacheTTL now fetches s = (Except.ok cached, s, 0) := by
  simp [getEpisodes, hrc]

theorem getEpisodes_first_ok {cacheTTL now : ℤ} {fetches : ℕ → FetchOutcome}
    {s : ProviderState} {es : List Episode}
    (hrc : readCache cacheTTL now s false = none)
    (h0 : fetches 0 = FetchOutcome.ok es) (hne : es ≠ []) :
    getEpisodes cacheTTL now fetches s = (Except.ok es, writeCache now es, 1) := by
  simp only [getEpisodes, hrc, h0]
  rw [if_pos (List.length_pos.mpr hne)]

theorem getEpisodes_first_empty {cacheTTL now : ℤ} {fetches : ℕ → FetchOutcome}
    {s : ProviderState} (hrc : readCache cacheTTL now s false = none)
    (h0 : fetches 0 = FetchOutcome.ok []) :
    getEpisodes cacheTTL now fetches s = (Except.ok [], s, 1) := by
  simp [getEpisodes, hrc, h0]

theorem getEpisodes_retry_ok {cacheTTL now : ℤ} {fetches : ℕ → FetchOutcome}
    {s : ProviderState} {e : String} {es : List Episode}
    (hrc : readCache cacheTTL now s false = none)
    (h0 : fetches 0 = FetchOutcome.fail e) (h1 : fetches 1 = FetchOutcome.ok es)
    (hne : es ≠ []) :
    getEpisodes cacheTTL now fetches s = (Except.ok es, writeCache now es, 2) := by
  simp only [getEpisodes, hrc, h0, h1]
  rw [if_pos (List.length_pos.mpr hne)]

theorem getEpisodes_retry_empty {cacheTTL now : ℤ} {fetches : ℕ → FetchOutcome}
    {s : ProviderState} {e : String} (hrc : readCache cacheTTL now s false = none)
    (h0 : fetches 0 = FetchOutcome.fail e) (h1 : fetches 1 = FetchOutcome.ok []) :
    getEpisodes cacheTTL now fetches s = (Except.ok [], s, 2) := by
  simp [getEpisodes, hrc, h0, h1]

theorem getEpisodes_both_fail_stale {cacheTTL now : ℤ} {fetches : ℕ → FetchOutcome}
    {s : ProviderState} {e e2 : String} {stale : List Episode}
    (hrc : readCache cacheTTL now s false = none)
    (h0 : fetches 0 = FetchOutcome.fail e) (h1 : fetches 1 = FetchOutcome.fail e2)
    (hst : readCache cacheTTL now s true = some stale) :
    getEpisodes cacheTTL now fetches s = (Except.ok stale, s, 2) := by
  simp [getEpisodes, hrc, h0, h1, hst]

theorem getEpisodes_both_fail_none {cacheTTL now : ℤ} {fetches : ℕ → FetchOutcome}
    {s : ProviderState} {e e2 : String}
    (hrc : readCache cacheTTL now s false = none)
    (h0 : fetches 0 = FetchOutcome.fail e) (h1 : fetches 1 = FetchOutcome.fail e2)
    (hst : readCache cacheTTL now s true = none) :
    getEpisodes cacheTTL now fetches s = (Except.error e2, s, 2) := by
  simp [getEpisodes, hrc, h0, h1, hst]

/-! ### The claims -/

/-- Claim C1 is false as stated: `savePosition("a", 11, 0)` persists the
entry although `11 < 0 − 30` fails.  The source tests the duration argument
for JavaScript truthiness, so the explicit duration 0 selects the
no-duration rule `position > 10`. -/
theorem claim_C1_counterexample :
    getPosition (savePosition 100 [] "a" 11 (some 0)) "a" = some 11
      ∧ ¬ ((11:ℚ) > 10 ∧ (11:ℚ) < 0 - 30) := by
  constructor
  · decide
  · rintro ⟨-, h⟩
    norm_num at h

/-- Claim C1, amended: for every nonzero duration `d`, and a store with room
below its capacity bound, `savePosition(id, p, d)` persists the entry iff
`p > 10` and `p < d − 30`, and `savePosition(id, p)` without duration
persists iff `p > 10`; a duration of exactly 0 is treated as unknown, so the
no-duration rule applies to it; whenever eligibility fails the store is left
completely unchanged. -/
theorem claim_C1_amended (maxItems : ℕ) (ps : Positions) (id : String) (p d : ℚ)
    (hnd : (ps.map Prod.fst).Nodup) (hroom : ps.length < maxItems) (hd : d ≠ 0) :
    ((10 < p ∧ p < d - 30) →
      getPosition (savePosition maxItems ps id p (some d)) id = some p)
    ∧ (¬ (10 < p ∧ p < d - 30) → savePosition maxItems ps id p (some d) = ps)
    ∧ (10 < p → getPosition (savePosition maxItems ps id p none) id = some p)
    ∧ (¬ 10 < p → savePosition maxItems ps id p none = ps)
    ∧ (10 < p → getPosition (savePosition maxItems ps id p (some 0)) id = some p)
    ∧ (¬ 10 < p → savePosition maxItems ps id p (some 0) = ps) := by
  refine ⟨?_, ?_, ?_, ?_, ?_, ?_⟩
  · intro h
    refine savePosition_eligible_lookup hnd hroom ?_
    simp only [shouldSave, if_neg hd, decide_eq_true_eq]
    exact ⟨h.1, h.2⟩
  · intro h
    refine savePosition_not_eligible ?_
    simp only [shouldSave, if_neg hd, decide_eq_false_iff_not]
    exact h
  · intro h
    refine savePosition_eligible_lookup hnd hroom ?_
    simp only [shouldSave, decide_eq_true_eq]
    exact h
  · intro h
    refine savePosition_not_eligible ?_
    simp only [shouldSave, decide_eq_false_iff_not]
    exact h
  · intro h
    refine savePosition_eligible_lookup hnd hroom ?_
    have h0 : shouldSave p (some 0) = decide (p > 10) := by
      simp [shouldSave]
    rw [h0, decide_eq_true_eq]
    exact h
  · intro h
    refine savePosition_not_eligible ?_
    have h0 : shouldSave p (some 0) = decide (p > 10) := by
      simp [shouldSave]
    rw [h0, decide_eq_false_iff_not]
    exact h

/-- Witness for the amended claim C1 at the default capacity 100, the empty
store, identifier "a", offset 20 and duration 100. -/
theorem claim_C1_witness :
    (([] : Positions).map Prod.fst).Nodup
    ∧ ([] : Positions).length < 100
    ∧ (100:ℚ) ≠ 0
    ∧ (((10:ℚ) < 20 ∧ (20:ℚ) < 100 - 30) →
        getPosition (savePosition 100 [] "a" 20 (some 100)) "a" = some 20)
    ∧ (¬ ((10:ℚ) < 20 ∧ (20:ℚ) < 100 - 30) → savePosition 100 [] "a" 20 (some 100) = [])
    ∧ ((10:ℚ) < 20 → getPosition (savePosition 100 [] "a" 20 none) "a" = some 20)
    ∧ (¬ (10:ℚ) < 20 → savePosition 100 [] "a" 20 none = [])
    ∧ ((10:ℚ) < 20 → getPosition (savePosition 100 [] "a" 20 (some 0)) "a" = some 20)
    ∧ (¬ (10:ℚ) < 20 → savePosition 100 [] "a" 20 (some 0) = []) :=
  ⟨by simp, by decide, by decide,
    (claim_C1_amended 100 [] "a" 20 100 (by simp) (by decide) (by decide)).1,
    (claim_C1_amended 100 [] "a" 20 100 (by simp) (by decide) (by decide)).2.1,
    (claim_C1_amended 100 [] "a" 20 100 (by simp) (by decide) (by decide)).2.2.1,
    (claim_C1_amended 100 [] "a" 20 100 (by simp) (by decide) (by decide)).2.2.2.1,
    (claim_C1_amended 100 [] "a" 20 100 (by simp) (by decide) (by decide)).2.2.2.2.1,
    (claim_C1_amended 100 [] "a" 20 100 (by simp) (by decide) (by decide)).2.2.2.2.2⟩

/-- Claim C2 is false as stated: with capacity 1, inserting identifier "1"
(offset 20) and then identifier "0" (offset 30) leaves the first-inserted
identifier present and the most recently inserted one absent — `Object.keys`
enumerates array-index-like keys in ascending numeric order, not in insertion
order, so "0" is deleted as the "oldest" key. -/
theorem claim_C2_counterexample :
    getPosition (savePosition 1 (savePosition 1 [] "1" 20 none) "0" 30 none) "1" = some 20
    ∧ getPosition (savePosition 1 (savePosition 1 [] "1" 20 none) "0" 30 none) "0" = none := by
  constructor
  · decide
  · decide

/-- Claim C2, amended: the store never holds more than the configured maximum
count of entries, and eviction deletes the keys that come first in the
JavaScript own-property enumeration order (array-index-like keys first in
ascending numeric order, then the remaining keys in insertion order).  For
identifiers that are not array-index-like strings this order is insertion
order, and then the claimed scenario holds: after inserting N+1 distinct
eligible identifiers into a store configured for maximum N, the store holds
exactly the last N inserted entries, the first-inserted identifier is absent,
and the most recently inserted N are all present. -/
theorem claim_C2_amended (N : ℕ) (l : List (String × ℚ))
    (hnd : (l.map Prod.fst).Nodup)
    (hidx : ∀ pr ∈ l, isArrayIndex pr.1 = false)
    (hpos : ∀ pr ∈ l, (10:ℚ) < pr.2)
    (hlen : l.length = N + 1) :
    (∀ (maxItems : ℕ) (ps : Positions) (id : String) (p : ℚ) (dur : Option ℚ),
      (ps.map Prod.fst).Nodup → ps.length ≤ maxItems →
      (savePosition maxItems ps id p dur).length ≤ maxItems)
    ∧ l.foldl (fun ps pr => savePosition N ps pr.1 pr.2 none) [] = l.drop 1
    ∧ (∀ pr0, l.head? = some pr0 →
        getPosition (l.foldl (fun ps pr => savePosition N ps pr.1 pr.2 none) []) pr0.1 = none)
    ∧ (∀ pr ∈ l.drop 1,
        getPosition (l.foldl (fun ps pr => savePosition N ps pr.1 pr.2 none) []) pr.1 = some pr.2) := by
  have hfold := @foldl_savePosition N l hnd hidx hpos
  have hd1 : l.length - N = 1 := by omega
  rw [hd1] at hfold
  refine ⟨fun maxI ps id p dur h1 h2 => savePosition_length_le id p dur h1 h2,
    hfold, ?_, ?_⟩
  · intro pr0 hh
    rw [hfold]
    apply getPosition_eq_none_of_not_mem
    cases l with
    | nil => cases hh
    | cons a t =>
      simp only [List.head?_cons, Option.some_inj] at hh
      simp only [List.map_cons, List.nodup_cons] at hnd
      rw [← hh]
      simpa using hnd.1
  · intro pr hpr
    rw [hfold]
    refine getPosition_of_mem ?_ hpr
    exact List.Nodup.sublist ((List.drop_sublist _ _).map Prod.fst) hnd

/-- Witness for the amended claim C2: capacity 1, identifiers "a" then "b"
with offsets 20 and 30. -/
theorem claim_C2_witness :
    (([("a", (20:ℚ)), ("b", 30)].map Prod.fst).Nodup
    ∧ (∀ pr ∈ [("a", (20:ℚ)), ("b", 30)], isArrayIndex pr.1 = false)
    ∧ (∀ pr ∈ [("a", (20:ℚ)), ("b", 30)], (10:ℚ) < pr.2)
    ∧ [("a", (20:ℚ)), ("b", 30)].length = 1 + 1)
    ∧ ((∀ (maxItems : ℕ) (ps : Positions) (id : String) (p : ℚ) (dur : Option ℚ),
        (ps.map Prod.fst).Nodup → ps.length ≤ maxItems →
        (savePosition maxItems ps id p dur).length ≤ maxItems)
    ∧ [("a", (20:ℚ)), ("b", 30)].foldl (fun ps pr => savePosition 1 ps pr.1 pr.2 none) [] =
        [("a", (20:ℚ)), ("b", 30)].drop 1
    ∧ (∀ pr0, [("a", (20:ℚ)), ("b", 30)].head? = some pr0 →
        getPosition ([("a", (20:ℚ)), ("b", 30)].foldl
          (fun ps pr => savePosition 1 ps pr.1 pr.2 none) []) pr0.1 = none)
    ∧ (∀ pr ∈ [("a", (20:ℚ)), ("b", 30)].drop 1,
        getPosition ([("a", (20:ℚ)), ("b", 30)].foldl
          (fun ps pr => savePosition 1 ps pr.1 pr.2 none) []) pr.1 = some pr.2)) :=
  ⟨⟨by decide, by decide, by decide, by decide⟩,
    claim_C2_amended 1 [("a", 20), ("b", 30)] (by decide) (by decide) (by decide) (by decide)⟩

/-- Claim C3: when both fetch attempts fail, a present (well-formed) cache
entry is returned regardless of its age and no error is raised, and with no
cache entry the call rejects with the error of the second attempt. -/
theorem claim_C3 (cacheTTL now : ℤ) (fetches : ℕ → FetchOutcome) (s : ProviderState)
    (e1 e2 : String) (hwf : cacheWF s)
    (h0 : fetches 0 = FetchOutcome.fail e1) (h1 : fetches 1 = FetchOutcome.fail e2) :
    (∀ entry, s.cache = some entry →
      (getEpisodes cacheTTL now fetches s).1 = Except.ok entry.episodes)
    ∧ (s.cache = none → (getEpisodes cacheTTL now fetches s).1 = Except.error e2) := by
  constructor
  · intro entry hc
    have hne := hwf entry hc
    by_cases hfresh : now - entry.timestamp < cacheTTL
    · rw [getEpisodes_of_fresh (readCache_fresh hc hne hfresh)]
    · rw [getEpisodes_both_fail_stale (readCache_expired hc (not_lt.mp hfresh)) h0 h1
        (readCache_stale hc hne)]
  · intro hc
    rw [getEpisodes_both_fail_none (readCache_none hc false) h0 h1 (readCache_none hc true)]

/-- Witness for claim C3: both attempts fail against an empty cache. -/
theorem claim_C3_witness :
    cacheWF emptyProvider
    ∧ failFetches 0 = FetchOutcome.fail "first error"
    ∧ failFetches 1 = FetchOutcome.fail "second error"
    ∧ ((∀ entry, emptyProvider.cache = some entry →
        (getEpisodes 3600000 0 failFetches emptyProvider).1 = Except.ok entry.episodes)
      ∧ (emptyProvider.cache = none →
        (getEpisodes 3600000 0 failFetches emptyProvider).1 = Except.error "second error")) :=
  ⟨fun _ h => Option.noConfusion h, rfl, rfl,
    claim_C3 3600000 0 failFetches emptyProvider "first error" "second error"
      (fun _ h => Option.noConfusion h) rfl rfl⟩

/-- Claim C4: with the cache absent or expired, a failing first attempt is
retried exactly once; first-attempt failure followed by second-attempt
success yields the second attempt's result with exactly two network calls. -/
theorem claim_C4 (cacheTTL now : ℤ) (fetches : ℕ → FetchOutcome) (s : ProviderState)
    (e : String) (es : List Episode)
    (hmiss : s.cache = none ∨
      ∃ entry, s.cache = some entry ∧ now - entry.timestamp ≥ cacheTTL)
    (h0 : fetches 0 = FetchOutcome.fail e) (h1 : fetches 1 = FetchOutcome.ok es) :
    (getEpisodes cacheTTL now fetches s).1 = Except.ok es
    ∧ (getEpisodes cacheTTL now fetches s).2.2 = 2 := by
  have hrc : readCache cacheTTL now s false = none := by
    rcases hmiss with hc | ⟨entry, hc, hexp⟩
    · exact readCache_none hc false
    · exact readCache_expired hc hexp
  by_cases hne : es = []
  · subst hne
    rw [getEpisodes_retry_empty hrc h0 h1]
    exact ⟨rfl, rfl⟩
  · rw [getEpisodes_retry_ok hrc h0 h1 hne]
    exact ⟨rfl, rfl⟩

/-- Witness for claim C4: no cache, first attempt fails, second succeeds. -/
theorem claim_C4_witness :
    (emptyProvider.cache = none ∨
      ∃ entry, emptyProvider.cache = some entry ∧ (0:ℤ) - entry.timestamp ≥ 3600000)
    ∧ retryFetches 0 = FetchOutcome.fail "first error"
    ∧ retryFetches 1 = FetchOutcome.ok [defaultEpisode]
    ∧ ((getEpisodes 3600000 0 retryFetches emptyProvider).1 = Except.ok [defaultEpisode]
      ∧ (getEpisodes 3600000 0 retryFetches emptyProvider).2.2 = 2) :=
  ⟨Or.inl rfl, rfl, rfl,
    claim_C4 3600000 0 retryFetches emptyProvider "first error" [defaultEpisode]
      (Or.inl rfl) rfl rfl⟩

/-- Claim C5: a present, fresh (strictly within TTL, well-formed) cache entry
is returned immediately with zero network calls, and once
`now − timestamp ≥ TTL` the freshness-checking cache read yields nothing, so
an expired entry is never the fast-path result. -/
theorem claim_C5 (cacheTTL now : ℤ) (fetches : ℕ → FetchOutcome) (s : ProviderState)
    (entry : CacheEntry) (hc : s.cache = some entry) (hne : entry.episodes ≠ []) :
    (now - entry.timestamp < cacheTTL →
      getEpisodes cacheTTL now fetches s = (Except.ok entry.episodes, s, 0))
    ∧ (now - entry.timestamp ≥ cacheTTL → readCache cacheTTL now s false = none) := by
  constructor
  · intro hfresh
    exact getEpisodes_of_fresh (readCache_fresh hc hne hfresh)
  · intro hexp
    exact readCache_expired hc hexp

/-- Witness for claim C5 on a one-entry cache written at clock 0, read at
clock 0 with the default one-hour TTL. -/
theorem claim_C5_witness :
    cachedProvider.cache = some sampleEntry
    ∧ sampleEntry.episodes ≠ []
    ∧ (((0:ℤ) - sampleEntry.timestamp < 3600000 →
        getEpisodes 3600000 0 failFetches cachedProvider =
          (Except.ok sampleEntry.episodes, cachedProvider, 0))
      ∧ ((0:ℤ) - sampleEntry.timestamp ≥ 3600000 →
        readCache 3600000 0 cachedProvider false = none)) :=
  ⟨rfl, List.cons_ne_nil _ _,
    claim_C5 3600000 0 failFetches cachedProvider sampleEntry rfl (List.cons_ne_nil _ _)⟩

/-- Claim C6: the speed store's save never validates, so `saveSpeed(x)`
always writes `x`; `loadSpeed` applies the closed-interval [0.5, 3] check on
read, so the round trip returns `x` exactly when `x` lies in the interval and
absent otherwise (in particular for 0.3 and 4). -/
theorem claim_C6 (x : ℚ) :
    saveSpeed x = some x
    ∧ loadSpeed (saveSpeed x) = (if 0.5 ≤ x ∧ x ≤ 3 then some x else none)
    ∧ loadSpeed (saveSpeed 0.3) = none
    ∧ loadSpeed (saveSpeed 4) = none := by
  refine ⟨rfl, rfl, ?_, ?_⟩
  · have h : ¬ ((0.5:ℚ) ≤ 0.3 ∧ (0.3:ℚ) ≤ 3) := by
      rintro ⟨h1, -⟩
      norm_num at h1
    simp [loadSpeed, saveSpeed, h]
  · have h : ¬ ((0.5:ℚ) ≤ 4 ∧ (4:ℚ) ≤ 3) := by
      rintro ⟨-, h2⟩
      norm_num at h2
    simp [loadSpeed, saveSpeed, h]

/-- Claim C7 is false as stated: the stored text "5" parses, so `loadState`
returns the number 5 as-is — neither absent nor a well-formed player-state
record — because the source performs no shape validation on read. -/
theorem claim_C7_counterexample :
    loadState (some (Except.ok (Json.num 5))) = some (Json.num 5)
    ∧ isWellFormedState (Json.num 5) = false :=
  ⟨rfl, rfl⟩

/-- Claim C7, amended: `loadState` never throws; a missing key, unparsable
text, or the text "null" read back as absent, and every state the program
itself saves reads back as the well-formed record it wrote; but any other
parsable value is returned verbatim with no shape validation. -/
theorem claim_C7_amended (st : PlayerState) (v : Json) (hv : v ≠ Json.null) :
    loadState (saveState st) = some (stateToJson st)
    ∧ isWellFormedState (stateToJson st) = true
    ∧ loadState none = none
    ∧ loadState (some (Except.error ())) = none
    ∧ loadState (some (Except.ok v)) = some v := by
  refine ⟨rfl, ?_, rfl, rfl, ?_⟩
  · simp [isWellFormedState, stateToJson, Rat.den_intCast]
  · cases v with
    | null => exact absurd rfl hv
    | bool b => rfl
    | num q => rfl
    | str s => rfl
    | arr elems => rfl
    | obj fields => rfl

/-- Witness for the amended claim C7 at the state (index 0, volume 1) and the
parsed non-record value 5. -/
theorem claim_C7_witness :
    Json.num 5 ≠ Json.null
    ∧ (loadState (saveState { currentEpisodeIndex := 0, volume := 1 }) =
        some (stateToJson { currentEpisodeIndex := 0, volume := 1 })
      ∧ isWellFormedState (stateToJson { currentEpisodeIndex := 0, volume := 1 }) = true
      ∧ loadState none = none
      ∧ loadState (some (Except.error ())) = none
      ∧ loadState (some (Except.ok (Json.num 5))) = some (Json.num 5)) :=
  ⟨fun h => Json.noConfusion h,
    claim_C7_amended { currentEpisodeIndex := 0, volume := 1 } (Json.num 5)
      (fun h => Json.noConfusion h)⟩

/-- Claim C8: for every index outside the bounds of the current episode list,
`loadEpisode` is a complete no-op — the whole controller state, including the
engine, both persistence cells and the emitted event stream, is unchanged. -/
theorem claim_C8 (s : Controller) (index : ℤ) (autoPlay : Bool)
    (h : index < 0 ∨ (s.episodes.length : ℤ) ≤ index) :
    loadEpisode s index autoPlay = s := by
  unfold loadEpisode
  rw [if_pos h]

/-- Witness for claim C8: index 5 against an empty episode list. -/
theorem claim_C8_witness :
    ((5:ℤ) < 0 ∨ (sampleController.episodes.length : ℤ) ≤ 5)
    ∧ loadEpisode sampleController 5 true = sampleController :=
  ⟨Or.inr (by decide), claim_C8 sampleController 5 true (Or.inr (by decide))⟩

/-- Claim C9: the controller's gated `saveCurrentPosition` (which consults
the store only past 10 seconds) is observably equivalent, on every controller
state, to the variant that delegates to the store unconditionally whenever an
episode is selected and a source is loaded, because the store's own
eligibility rule already rejects every offset not strictly greater than 10. -/
theorem claim_C9 (s : Controller) :
    saveCurrentPosition s = saveCurrentPositionUncond s := by
  simp only [saveCurrentPosition, saveCurrentPositionUncond]
  by_cases h : s.currentIndex < 0 ∨ ¬ hasSrc s.engine
  · rw [if_pos h, if_pos h]
  · rw [if_neg h, if_neg h]
    by_cases hct : s.engine.currentTime > 10
    · rw [if_pos hct]
    · rw [if_neg hct,
        savePosition_not_eligible (shouldSave_false_of_le _ (not_lt.mp hct))]

/-- Claim C10: the provider's cache never holds and never serves an empty
episode list — an empty or missing cached list reads as absent in both fresh
and stale modes, cache well-formedness is preserved, any cache write stores a
non-empty list stamped with the current clock, and an empty result always
comes from a live fetch attempt, never from the cache. -/
theorem claim_C10 (cacheTTL now : ℤ) (fetches : ℕ → FetchOutcome) (s : ProviderState)
    (hwf : cacheWF s) :
    (∀ (ts : ℤ) (b : Bool),
      readCache cacheTTL now { cache := some { episodes := [], timestamp := ts } } b = none
      ∧ readCache cacheTTL now { cache := none } b = none)
    ∧ cacheWF (getEpisodes cacheTTL now fetches s).2.1
    ∧ ((getEpisodes cacheTTL now fetches s).2.1 ≠ s →
      ∃ es, es ≠ [] ∧ (getEpisodes cacheTTL now fetches s).2.1.cache =
        some { episodes := es, timestamp := now })
    ∧ ((getEpisodes cacheTTL now fetches s).1 = Except.ok [] →
      fetches 0 = FetchOutcome.ok []
      ∨ ∃ e, fetches 0 = FetchOutcome.fail e ∧ fetches 1 = FetchOutcome.ok []) := by
  refine ⟨?_, ?_⟩
  · intro ts b
    constructor
    · simp [readCache]
    · simp [readCache]
  cases hrc : readCache cacheTTL now s false with
  | some cached =>
    rw [getEpisodes_of_fresh hrc]
    refine ⟨hwf, fun h => absurd rfl h, fun h => ?_⟩
    injection h with h
    exact absurd h (readCache_some_ne_nil hrc)
  | none =>
    cases h0 : fetches 0 with
    | ok es =>
      by_cases hne : es = []
      · subst hne
        rw [getEpisodes_first_empty hrc h0]
        exact ⟨hwf, fun h => absurd rfl h, fun _ => Or.inl rfl⟩
      · rw [getEpisodes_first_ok hrc h0 hne]
        refine ⟨?_, fun _ => ⟨es, hne, rfl⟩, fun h => ?_⟩
        · intro entry he
          injection he with he
          rw [← he]
          simpa using hne
        · injection h with h
          exact absurd h hne
    | fail e =>
      cases h1 : fetches 1 with
      | ok es =>
        by_cases hne : es = []
        · subst hne
          rw [getEpisodes_retry_empty hrc h0 h1]
          exact ⟨hwf, fun h => absurd rfl h, fun _ => Or.inr ⟨e, rfl, rfl⟩⟩
        · rw [getEpisodes_retry_ok hrc h0 h1 hne]
          refine ⟨?_, fun _ => ⟨es, hne, rfl⟩, fun h => ?_⟩
          · intro entry he
            injection he with he
            rw [← he]
            simpa using hne
          · injection h with h
            exact absurd h hne
      | fail e2 =>
        cases hst : readCache cacheTTL now s true with
        | some stale =>
          rw [getEpisodes_both_fail_stale hrc h0 h1 hst]
          refine ⟨hwf, fun h => absurd rfl h, fun h => ?_⟩
          injection h with h
          exact absurd h (readCache_some_ne_nil hst)
        | none =>
          rw [getEpisodes_both_fail_none hrc h0 h1 hst]
          refine ⟨hwf, fun h => absurd rfl h, fun h => ?_⟩
          cases h

/-- Witness for claim C10: empty cache, both fetch attempts failing. -/
theorem claim_C10_witness :
    cacheWF emptyProvider
    ∧ ((∀ (ts : ℤ) (b : Bool),
        readCache 3600000 0 { cache := some { episodes := [], timestamp := ts } } b = none
        ∧ readCache 3600000 0 { cache := none } b = none)
      ∧ cacheWF (getEpisodes 3600000 0 failFetches emptyProvider).2.1
      ∧ ((getEpisodes 3600000 0 failFetches emptyProvider).2.1 ≠ emptyProvider →
        ∃ es, es ≠ [] ∧ (getEpisodes 3600000 0 failFetches emptyProvider).2.1.cache =
          some { episodes := es, timestamp := 0 })
      ∧ ((getEpisodes 3600000 0 failFetches emptyProvider).1 = Except.ok [] →
        failFetches 0 = FetchOutcome.ok []
        ∨ ∃ e, failFetches 0 = FetchOutcome.fail e ∧ failFetches 1 = FetchOutcome.ok [])) :=
  ⟨fun _ h => Option.noConfusion h,
    claim_C10 3600000 0 failFetches emptyProvider (fun _ h => Option.noConfusion h)⟩

end PodcastWidget
